import Mathlib

/-!
Verification of the Sprinkler fountain module (`src/Sprinkler/fountain.py`)
of the trickleTWIN repository: droplet framing (`addFooter`), fountain
parameters (`FounParameters`), the Trickle consistency check
(`CheckConsistency`) and the bounded fountain send loop (`fountain`).

Python byte strings are modelled as `List Nat` (each entry one byte).
Fallible operations (`struct.pack` range errors, division by zero,
raised socket errors) are modelled with `Option` and explicit result
constructors.  Real-valued quantities (`Gamma`, the stop bound) are
modelled over `ℝ`, abstracting the source's floating point.
-/

namespace Sprinkler

/-- A Python `bytes` value: a list of byte values. -/
abbrev Bytes := List Nat

/-- The 2-byte big-endian encoding of `v`, as produced by
`struct.pack('!H', v)` for in-range `v`. -/
def encodeBE2 (v : Nat) : Bytes := [v / 256, v % 256]

/-- Big-endian decoding of a 2-byte string; `0` on malformed input. -/
def decodeBE2 (b : Bytes) : Nat :=
  match b with
  | [hi, lo] => hi * 256 + lo
  | _ => 0

/-- `struct.pack('!H', v)`: the 2-byte big-endian packing.  The Python
`struct` module raises `struct.error` when `v` is not in `[0, 65535]`;
that failure is the `none` case. -/
def packH (v : Nat) : Option Bytes :=
  if v < 65536 then some (encodeBE2 v) else none

/-- `addFooter` (fountain.py lines 48-68): concatenate the 2-byte
big-endian version footer to an LT-encoded block. -/
def addFooter (encodedBlock : Bytes) (version : Nat) : Option Bytes :=
  (packH version).map (fun footer => encodedBlock ++ footer)

/-- C8: for every fragment and every version in [0, 65535], `addFooter`
returns a droplet that is the fragment followed by exactly 2 footer
bytes which decode, big-endian, back to the version. -/
theorem addFooter_roundtrip (frag : Bytes) (version : Nat)
    (hv : version ≤ 65535) :
    ∃ d, addFooter frag version = some d ∧
      d.length = frag.length + 2 ∧
      d.take frag.length = frag ∧
      decodeBE2 (d.drop frag.length) = version := by
  refine ⟨frag ++ encodeBE2 version, ?_, ?_, ?_, ?_⟩
  · simp [addFooter, packH, Nat.lt_succ_of_le hv]
  · simp [encodeBE2]
  · simp [List.take_left frag (encodeBE2 version)]
  · have h := List.drop_left frag (encodeBE2 version)
    rw [h]
    simp [decodeBE2, encodeBE2, Nat.mul_comm, Nat.div_add_mod]

/-- C8 witness: concrete round trip at fragment `[1, 2]`, version 513. -/
theorem addFooter_roundtrip_witness :
    513 ≤ 65535 ∧
    ∃ d, addFooter [1, 2] 513 = some d ∧
      d.length = ([1, 2] : Bytes).length + 2 ∧
      d.take ([1, 2] : Bytes).length = [1, 2] ∧
      decodeBE2 (d.drop ([1, 2] : Bytes).length) = 513 :=
  ⟨by norm_num, addFooter_roundtrip [1, 2] 513 (by norm_num)⟩

/-- C9 counterexample: `addFooter` does fail for the unsigned version
65536 — `struct.pack('!H', 65536)` raises `struct.error`. -/
theorem addFooter_fails_at_65536 : addFooter [] 65536 = none := by
  simp [addFooter, packH]

/-- C9 (amended): `addFooter` never fails for versions in [0, 65535]:
for every fragment and every such version it returns a droplet. -/
theorem addFooter_total_below_65536 (frag : Bytes) (version : Nat)
    (hv : version < 65536) :
    ∃ d, addFooter frag version = some d := by
  exact ⟨frag ++ encodeBE2 version, by simp [addFooter, packH, hv]⟩

/-- C9 witness: concrete success at fragment `[7]`, version 65535. -/
theorem addFooter_total_below_65536_witness :
    65535 < 65536 ∧ ∃ d, addFooter [7] 65535 = some d :=
  ⟨by norm_num, addFooter_total_below_65536 [7] 65535 (by norm_num)⟩

/-! ## Consistency check (fountain.py lines 113-173) -/

/-- The global variables of `Sprinkler.global_variables` read by
`CheckConsistency`. -/
structure GlobalVars where
  VERSION : Nat
  FILENAME : String
  BLOCKSIZE : Nat
  MCAST_GRP : String
  MCAST_PORT : Nat
deriving DecidableEq

/-- Signal given to the trickle timer: `hear_consistent()` or
`hear_inconsistent()`. -/
inductive TimerInstruction where
  | hearConsistent
  | hearInconsistent
deriving DecidableEq

/-- The timer's pending action (`gv.tt.function` together with
`gv.tt.kwargs`): either `mcastSock.send` of an advertisement message,
or the `fountain` function with its arguments. -/
inductive PendingAction where
  | sendAction (message : Bytes) (host : String) (port : Nat)
  | fountainAction (fname : String) (bsize : Nat) (ver : Nat)
deriving DecidableEq

/-- Whether the pending action is the fountain, i.e. the source's test
`gv.tt.function.__name__ == 'fountain'`. -/
def PendingAction.isFountain : PendingAction → Bool
  | .fountainAction _ _ _ => true
  | _ => false

/-- `CheckConsistency` (fountain.py lines 113-173).  Inputs: the global
variables, the timer's counters `gv.tt.c` and `gv.tt.k`, the timer's
current pending action, and the version heard from a peer.  Output: the
new pending action and the instruction given to the timer; `none`
models the `struct.error` raised by `pack('!H', ...)` on an
out-of-range local version. -/
def CheckConsistency (g : GlobalVars) (ttc ttk : Nat)
    (cur : PendingAction) (incomingVersion : Nat) :
    Option (PendingAction × TimerInstruction) :=
  if g.VERSION = incomingVersion then
    if ttc > ttk || cur.isFountain then
      (packH g.VERSION).map (fun msg =>
        (.sendAction msg g.MCAST_GRP g.MCAST_PORT, .hearConsistent))
    else
      some (cur, .hearConsistent)
  else
    if g.VERSION < incomingVersion then
      some (cur, .hearInconsistent)
    else
      some (.fountainAction g.FILENAME g.BLOCKSIZE g.VERSION,
            .hearInconsistent)

/-- C2: when the local version equals the peer's, `CheckConsistency`
signals `hear_consistent`, and the pending action becomes the
advertisement of the 2-byte big-endian local version exactly when
`c > k` or the fountain action is armed; otherwise it is unchanged. -/
theorem checkConsistency_equal (g : GlobalVars) (ttc ttk : Nat)
    (cur : PendingAction) (incomingVersion : Nat)
    (heq : g.VERSION = incomingVersion) (hv : g.VERSION < 65536) :
    CheckConsistency g ttc ttk cur incomingVersion
      = some ((if ttk < ttc ∨ cur.isFountain = true then
                PendingAction.sendAction (encodeBE2 g.VERSION)
                  g.MCAST_GRP g.MCAST_PORT
              else cur), .hearConsistent) := by
  subst heq
  by_cases hc : ttk < ttc ∨ cur.isFountain = true
  · have hb : (ttc > ttk || cur.isFountain) = true := by
      rcases hc with h | h
      · simp [h]
      · simp [h]
    simp [CheckConsistency, hb, packH, hv, hc]
  · push_neg at hc
    have hb : (ttc > ttk || cur.isFountain) = false := by
      simp [Nat.not_lt.mpr hc.1, hc.2]
    have hc' : ¬(ttk < ttc ∨ cur.isFountain = true) := by
      push_neg
      exact hc
    simp [CheckConsistency, hb, hc']

/-- C2 witness (spec Scenario B): local = peer = 5, `c = 6 > k = 4`,
so the pending action becomes the advertisement of version 5. -/
theorem checkConsistency_equal_witness :
    (5 : Nat) < 65536 ∧
    CheckConsistency ⟨5, "f.bin", 1000, "224.0.0.1", 30001⟩ 6 4
        (.fountainAction "f.bin" 1000 4) 5
      = some (.sendAction [0, 5] "224.0.0.1" 30001, .hearConsistent) := by
  have h := checkConsistency_equal ⟨5, "f.bin", 1000, "224.0.0.1", 30001⟩
    6 4 (.fountainAction "f.bin" 1000 4) 5 rfl (by decide)
  exact ⟨by decide, by simpa [PendingAction.isFountain, encodeBE2] using h⟩

/-- C3: when local and peer versions differ, `CheckConsistency`
signals `hear_inconsistent`; when behind it leaves the action
unchanged, and when ahead it installs the fountain action with the
current filename, block size and local version. -/
theorem checkConsistency_differ (g : GlobalVars) (ttc ttk : Nat)
    (cur : PendingAction) (incomingVersion : Nat)
    (hne : g.VERSION ≠ incomingVersion) :
    CheckConsistency g ttc ttk cur incomingVersion
      = some ((if g.VERSION < incomingVersion then cur
              else PendingAction.fountainAction g.FILENAME g.BLOCKSIZE
                     g.VERSION), .hearInconsistent) := by
  by_cases hlt : g.VERSION < incomingVersion
  · simp [CheckConsistency, hne, hlt]
  · simp [CheckConsistency, hne, hlt]

/-- C3 witness (spec Scenario D): local 9 over peer 4 arms the
fountain action with the local state. -/
theorem checkConsistency_differ_witness :
    (9 : Nat) ≠ 4 ∧
    CheckConsistency ⟨9, "f.bin", 1000, "224.0.0.1", 30001⟩ 0 4
        (.sendAction [0, 9] "224.0.0.1" 30001) 4
      = some (.fountainAction "f.bin" 1000 9, .hearInconsistent) := by
  have h := checkConsistency_differ ⟨9, "f.bin", 1000, "224.0.0.1", 30001⟩
    0 4 (.sendAction [0, 9] "224.0.0.1" 30001) 4 (by decide)
  exact ⟨by decide, by simpa using h⟩

/-! ## Fountain parameters (fountain.py lines 71-110) -/

/-- `DEFAULT_DELTA` from the external `lt.sampler` module: the fixed
decoding-failure-probability constant, 0.5. -/
noncomputable def DEFAULT_DELTA : ℝ := 1 / 2

/-- The redundancy-bound formula of the spec:
`Gamma = sqrt(K) * (ln(K / delta))^2 / K`. -/
noncomputable def Gamma_spec (K δ : ℝ) : ℝ :=
  Real.sqrt K * Real.log (K / δ) ^ 2 / K

/-- `FounParameters` (fountain.py lines 71-110).  The file I/O and the
external coder's `encode._split_file` are out of scope; the function
takes their result (file size, block list) as input.  `calculated_K`
is the length of the block list; `none` models the `ZeroDivisionError`
(and `log` domain error) the Python raises when the coder reports no
blocks. -/
noncomputable def FounParameters (split : Nat × List Bytes) :
    Option (Nat × ℝ) :=
  let calculated_K := split.2.length
  if calculated_K = 0 then none
  else
    some (calculated_K,
      Real.sqrt calculated_K *
        Real.log (calculated_K / DEFAULT_DELTA) ^ 2 / calculated_K)

/-- `FounParameters` on a non-empty split, in terms of `Gamma_spec`. -/
lemma founParameters_eq (split : Nat × List Bytes) (h : split.2 ≠ []) :
    FounParameters split
      = some (split.2.length,
              Gamma_spec split.2.length DEFAULT_DELTA) := by
  have hlen : split.2.length ≠ 0 := by simpa using h
  simp [FounParameters, Gamma_spec, hlen]

/-- C6: for any split with at least one block, `FounParameters` returns
K equal to the number of blocks of the coder's split and Gamma exactly
`sqrt(K) * (ln(K / delta))^2 / K` at the configured delta. -/
theorem founParameters_eq_spec (split : Nat × List Bytes)
    (h : split.2 ≠ []) :
    FounParameters split
      = some (split.2.length,
              Gamma_spec split.2.length DEFAULT_DELTA) :=
  founParameters_eq split h

/-- C6 witness: a two-block split gives K = 2 and the spec Gamma. -/
theorem founParameters_eq_spec_witness :
    ((1000, [[0], [1]]) : Nat × List Bytes).2 ≠ [] ∧
    FounParameters (1000, [[0], [1]])
      = some (2, Gamma_spec 2 DEFAULT_DELTA) :=
  ⟨by simp, by simpa using founParameters_eq_spec (1000, [[0], [1]]) (by simp)⟩

/-- Gamma is non-negative whenever K is. -/
lemma Gamma_spec_nonneg (K δ : ℝ) (hK : 0 ≤ K) : 0 ≤ Gamma_spec K δ :=
  div_nonneg (mul_nonneg (Real.sqrt_nonneg K) (sq_nonneg _)) hK

/-- For positive K, Gamma rewrites to `(ln(K/δ))^2 / sqrt K`. -/
lemma Gamma_spec_eq_div_sqrt (K δ : ℝ) (hK : 0 < K) :
    Gamma_spec K δ = Real.log (K / δ) ^ 2 / Real.sqrt K := by
  have hs : Real.sqrt K ≠ 0 := ne_of_gt (Real.sqrt_pos.mpr hK)
  have h2 : K = Real.sqrt K * Real.sqrt K := (Real.mul_self_sqrt hK.le).symm
  calc Real.sqrt K * Real.log (K / δ) ^ 2 / K
      = Real.sqrt K * Real.log (K / δ) ^ 2 /
          (Real.sqrt K * Real.sqrt K) := by rw [← h2]
    _ = Real.log (K / δ) ^ 2 / Real.sqrt K := mul_div_mul_left _ _ hs

/-- Strict decrease of Gamma in K once `ln(K/δ) ≥ 4`. -/
lemma Gamma_spec_anti (δ x y : ℝ) (hδ : 0 < δ) (hx : 1 ≤ x)
    (hxy : x < y) (hL : 4 ≤ Real.log (x / δ)) :
    Gamma_spec y δ < Gamma_spec x δ := by
  have hx0 : 0 < x := lt_of_lt_of_le one_pos hx
  have hy0 : 0 < y := hx0.trans hxy
  have hxδ : 0 < x / δ := div_pos hx0 hδ
  have hyδ : 0 < y / δ := div_pos hy0 hδ
  set L₁ := Real.log (x / δ) with hL₁def
  set L₂ := Real.log (y / δ) with hL₂def
  have hL₁pos : 0 < L₁ := lt_of_lt_of_le (by norm_num) hL
  have hLlt : L₁ < L₂ := by
    apply Real.log_lt_log hxδ
    gcongr
  have hd : 0 < L₂ - L₁ := sub_pos.mpr hLlt
  -- relate y to x through the logs
  have hyx : y = x * Real.exp (L₂ - L₁) := by
    have h1 : Real.exp L₁ = x / δ := Real.exp_log hxδ
    have h2 : Real.exp L₂ = y / δ := Real.exp_log hyδ
    have h3 : x * Real.exp (L₂ - L₁)
        = x * (Real.exp L₂ / Real.exp L₁) := by rw [Real.exp_sub]
    rw [h3, h1, h2]
    field_simp
  have hsy : Real.sqrt y
      = Real.sqrt x * Real.exp ((L₂ - L₁) / 2) := by
    rw [hyx, Real.sqrt_mul hx0.le, ← Real.exp_half]
  -- the key inequality on the numerators
  have hr1 : 1 < L₂ / L₁ := (one_lt_div hL₁pos).mpr hLlt
  have hlogr : Real.log (L₂ / L₁) < (L₂ - L₁) / L₁ := by
    have := Real.log_lt_sub_one_of_pos (lt_trans one_pos hr1)
      (ne_of_gt hr1)
    have hrw : L₂ / L₁ - 1 = (L₂ - L₁) / L₁ := by
      field_simp
    rw [hrw] at this
    exact this
  have hdiv : (L₂ - L₁) / L₁ ≤ (L₂ - L₁) / 4 := by
    gcongr
  have hlog2 : 2 * Real.log (L₂ / L₁) < (L₂ - L₁) / 2 := by
    linarith
  have hkey : L₂ ^ 2 < L₁ ^ 2 * Real.exp ((L₂ - L₁) / 2) := by
    have hrpos : 0 < L₂ / L₁ := lt_trans one_pos hr1
    have hr2 : (L₂ / L₁) ^ 2 = Real.exp (2 * Real.log (L₂ / L₁)) := by
      rw [two_mul, Real.exp_add, Real.exp_log hrpos]
      ring
    have hr2lt : (L₂ / L₁) ^ 2 < Real.exp ((L₂ - L₁) / 2) := by
      rw [hr2]
      exact Real.exp_lt_exp.mpr hlog2
    have hL₁ne : L₁ ≠ 0 := ne_of_gt hL₁pos
    have hsplit : L₁ ^ 2 * (L₂ / L₁) ^ 2 = L₂ ^ 2 := by
      field_simp
    calc L₂ ^ 2 = L₁ ^ 2 * (L₂ / L₁) ^ 2 := hsplit.symm
      _ < L₁ ^ 2 * Real.exp ((L₂ - L₁) / 2) := by
          apply mul_lt_mul_of_pos_left hr2lt (by positivity)
  -- transfer to the Gamma quotients
  rw [Gamma_spec_eq_div_sqrt x δ hx0, Gamma_spec_eq_div_sqrt y δ hy0]
  rw [← hL₁def, ← hL₂def, hsy]
  have hsx : 0 < Real.sqrt x := Real.sqrt_pos.mpr hx0
  rw [div_lt_div_iff₀ (by positivity) hsx]
  have h5 := mul_lt_mul_of_pos_right hkey hsx
  calc L₂ ^ 2 * Real.sqrt x
      < L₁ ^ 2 * Real.exp ((L₂ - L₁) / 2) * Real.sqrt x := h5
    _ = L₁ ^ 2 * (Real.sqrt x * Real.exp ((L₂ - L₁) / 2)) := by ring

/-- C7 counterexample: the claimed strict decrease of Gamma in K fails
already for delta = 1/2 (which lies in (0,1)) between the positive
fragment counts K = 1 and K = 2. -/
theorem gamma_not_strictly_decreasing :
    (0 : ℝ) < 1 / 2 ∧ (1 / 2 : ℝ) < 1 ∧ (1 : ℝ) < 2 ∧
    Gamma_spec 1 (1 / 2) < Gamma_spec 2 (1 / 2) := by
  refine ⟨by norm_num, by norm_num, by norm_num, ?_⟩
  have e1 : Gamma_spec 1 (1 / 2) = Real.log 2 ^ 2 := by
    unfold Gamma_spec
    norm_num [Real.sqrt_one]
  have hlog4 : Real.log 4 = 2 * Real.log 2 := by
    have h4 : (4 : ℝ) = 2 ^ 2 := by norm_num
    rw [h4, Real.log_pow]
    push_cast
    ring
  have e2 : Gamma_spec 2 (1 / 2)
      = 2 * Real.sqrt 2 * Real.log 2 ^ 2 := by
    unfold Gamma_spec
    norm_num [hlog4]
    ring
  rw [e1, e2]
  have hl : 0 < Real.log 2 ^ 2 := pow_pos (Real.log_pos one_lt_two) 2
  have hs : (1 : ℝ) < 2 * Real.sqrt 2 := by
    nlinarith [Real.sq_sqrt (show (0 : ℝ) ≤ 2 by norm_num),
      Real.sqrt_nonneg 2]
  nlinarith [hl, hs]

/-- C7 (amended): for every delta in (0,1), Gamma is non-negative at
every positive fragment count, and Gamma strictly decreases in K on
the region where `ln(K/δ) ≥ 4` (for delta = 0.5 this is K ≥ 28); for
smaller K the formula is strictly increasing at some points, as the
counterexample shows. -/
theorem gamma_nonneg_and_anti (δ : ℝ) (hδ0 : 0 < δ) (_hδ1 : δ < 1) :
    (∀ K : ℕ, 1 ≤ K → 0 ≤ Gamma_spec K δ) ∧
    (∀ K₁ K₂ : ℕ, 1 ≤ K₁ → K₁ < K₂ → 4 ≤ Real.log (K₁ / δ) →
      Gamma_spec K₂ δ < Gamma_spec K₁ δ) := by
  constructor
  · intro K _
    exact Gamma_spec_nonneg _ _ (Nat.cast_nonneg K)
  · intro K₁ K₂ h1 h12 hLbig
    exact Gamma_spec_anti δ K₁ K₂ hδ0 (by exact_mod_cast h1)
      (by exact_mod_cast h12) hLbig

/-- C7 witness: delta = 1/2 and K = 28 < 29, where `ln(56) ≥ 4`. -/
theorem gamma_nonneg_and_anti_witness :
    0 ≤ Gamma_spec (28 : ℕ) (1 / 2) ∧
    Gamma_spec (29 : ℕ) (1 / 2) < Gamma_spec (28 : ℕ) (1 / 2) := by
  have h := gamma_nonneg_and_anti (1 / 2) (by norm_num) (by norm_num)
  have hlog : 4 ≤ Real.log ((28 : ℕ) / (1 / 2 : ℝ)) := by
    have h56 : ((28 : ℕ) : ℝ) / (1 / 2 : ℝ) = 56 := by norm_num
    rw [h56, Real.le_log_iff_exp_le (by norm_num)]
    have h4 : Real.exp (4 : ℝ) = Real.exp 1 ^ (4 : ℕ) := by
      rw [Real.exp_one_pow]
      norm_num
    have hlt : Real.exp 1 ^ (4 : ℕ) < 2.7182818286 ^ (4 : ℕ) := by
      apply pow_lt_pow_left₀ Real.exp_one_lt_d9 (Real.exp_pos 1).le
      norm_num
    have : (2.7182818286 : ℝ) ^ (4 : ℕ) < 56 := by norm_num
    rw [h4]
    linarith
  exact ⟨h.1 28 (by norm_num),
    h.2 28 29 (by norm_num) (by norm_num) hlog⟩

/-! ## Fountain session (fountain.py lines 176-250) -/

/-- Python's `round(x, 1)`: rounding to one decimal place, modelled
with Mathlib's `round` on `10 * x`.  (Python rounds exact halves to
even where Mathlib rounds them up; the two agree off that null set.) -/
noncomputable def round1 (x : ℝ) : ℝ := (round (10 * x) : ℤ) / 10

/-- Outcome of one fountain run: the final `packetCounter` and the
droplets successfully handed to the transport, tagged by how the run
ended — stop criterion met, encoder stream exhausted, `socket.error`
raised by a send, or `struct.error` raised while framing. -/
inductive FResult where
  | completed (counter : Nat) (sent : List Bytes)
  | exhausted (counter : Nat) (sent : List Bytes)
  | transportError (counter : Nat) (sent : List Bytes)
  | packError (counter : Nat) (sent : List Bytes)
deriving DecidableEq

/-- The final counter of a run. -/
def FResult.counter : FResult → Nat
  | .completed c _ => c
  | .exhausted c _ => c
  | .transportError c _ => c
  | .packError c _ => c

/-- The droplets successfully handed to the transport during a run. -/
def FResult.sent : FResult → List Bytes
  | .completed _ s => s
  | .exhausted _ s => s
  | .transportError _ s => s
  | .packError _ s => s

/-- The send loop of fountain.py lines 221-249 over the encoder's
fragment stream: frame each fragment with the *global* version `gVer`
(line 224 uses `gv.VERSION`), attempt the send (`fails n` says whether
the n-th send attempt raises `socket.error`; a raise aborts the run),
count the successful send, and test the stop criterion after each
counted send. -/
def fountainLoop (stop : Nat → Bool) (fails : Nat → Bool) (gVer : Nat) :
    Nat → List Bytes → List Bytes → FResult
  | counter, sent, [] => .exhausted counter sent
  | counter, sent, frag :: rest =>
    match addFooter frag gVer with
    | none => .packError counter sent
    | some droplet =>
      if fails counter then .transportError counter sent
      else if stop (counter + 1) then
        .completed (counter + 1) (sent ++ [droplet])
      else
        fountainLoop stop fails gVer (counter + 1) (sent ++ [droplet]) rest

/-- The environment of one fountain run: the outputs of the external
coder on the target file and the behavior of the multicast transport. -/
structure FountainEnv where
  fileSize : Nat
  splitBlocks : List Bytes
  encFrags : List Bytes
  fails : Nat → Bool
  gvVERSION : Nat

/-- The stop test of fountain.py line 233:
`packetCounter >= (1 + round(g, 1)) * k`. -/
noncomputable def fountainStop (g : ℝ) (k : Nat) (c : Nat) : Bool :=
  decide ((1 + round1 g) * k ≤ (c : ℝ))

set_option linter.unusedVariables false in
/-- `fountain` (fountain.py lines 176-250): compute `(k, g)` from the
coder's split, then run the send loop from a zero counter over the
encoder's stream.  The `ver` argument is carried as in the source and,
as in the source, not used for framing — framing uses the global
version.  `none` models the error `FounParameters` raises on an empty
split. -/
noncomputable def fountain (env : FountainEnv) (ver : Nat) :
    Option FResult :=
  (FounParameters (env.fileSize, env.splitBlocks)).map (fun kg =>
    fountainLoop (fountainStop kg.2 kg.1) env.fails env.gvVERSION
      0 [] env.encFrags)

/-- The stop test holds exactly from the ceiling of the bound on. -/
lemma fountainStop_iff (g : ℝ) (k c : Nat) :
    fountainStop g k c = true ↔ Nat.ceil ((1 + round1 g) * k) ≤ c := by
  rw [fountainStop, decide_eq_true_iff, Nat.ceil_le]

/-- `round` of a non-negative real is non-negative, so `round1` is. -/
lemma round1_nonneg (x : ℝ) (hx : 0 ≤ x) : 0 ≤ round1 x := by
  rw [round1]
  apply div_nonneg _ (by norm_num)
  have h : (0 : ℤ) ≤ round (10 * x) := by
    rw [round_eq]
    exact Int.le_floor.mpr (by push_cast; linarith)
  exact_mod_cast h

/-- With an error-free transport and an in-range global version, the
loop runs to the first counter value `counter + m` passing the stop
test and completes there. -/
lemma fountainLoop_completes (stop fails : Nat → Bool) (gVer : Nat)
    (hf : ∀ n, fails n = false) (hv : gVer < 65536) :
    ∀ (frags : List Bytes) (counter : Nat) (sent : List Bytes) (m : Nat),
      1 ≤ m → m ≤ frags.length →
      stop (counter + m) = true →
      (∀ i, 1 ≤ i → i < m → stop (counter + i) = false) →
      ∃ s, fountainLoop stop fails gVer counter sent frags
        = .completed (counter + m) s := by
  intro frags
  induction frags with
  | nil =>
    intro counter sent m h1 hlen _ _
    simp only [List.length_nil] at hlen
    omega
  | cons frag rest ih =>
    intro counter sent m h1 hlen hstop hmin
    have hfoot : addFooter frag gVer = some (frag ++ encodeBE2 gVer) := by
      simp [addFooter, packH, hv]
    by_cases hm : m = 1
    · subst hm
      refine ⟨sent ++ [frag ++ encodeBE2 gVer], ?_⟩
      simp [fountainLoop, hfoot, hf counter, hstop]
    · have hs1 : stop (counter + 1) = false := hmin 1 le_rfl (by omega)
      have harith : counter + 1 + (m - 1) = counter + m := by omega
      obtain ⟨s, hs⟩ := ih (counter + 1)
        (sent ++ [frag ++ encodeBE2 gVer]) (m - 1)
        (by omega)
        (by simp only [List.length_cons] at hlen; omega)
        (by rw [harith]; exact hstop)
        (fun i hi1 hi2 => by
          have hsh : counter + 1 + i = counter + (i + 1) := by omega
          rw [hsh]
          exact hmin (i + 1) (by omega) (by omega))
      refine ⟨s, ?_⟩
      rw [show fountainLoop stop fails gVer counter sent (frag :: rest)
            = fountainLoop stop fails gVer (counter + 1)
                (sent ++ [frag ++ encodeBE2 gVer]) rest from by
        simp [fountainLoop, hfoot, hf counter, hs1]]
      rw [hs, harith]

/-- If the first N send attempts succeed, the (N+1)-st raises, the
stream has not run out and the stop bound is not reached by then, the
loop aborts with the transport error after exactly N sent droplets. -/
lemma fountainLoop_errors (stop fails : Nat → Bool) (gVer : Nat)
    (hv : gVer < 65536) (N : Nat) (hfN : fails N = true) :
    ∀ (frags : List Bytes) (counter : Nat) (sent : List Bytes),
      sent.length = counter → counter ≤ N →
      (∀ i, counter ≤ i → i < N → fails i = false) →
      N - counter < frags.length →
      (∀ c, c ≤ N → stop c = false) →
      ∃ s, fountainLoop stop fails gVer counter sent frags
        = .transportError N s ∧ s.length = N := by
  intro frags
  induction frags with
  | nil =>
    intro counter sent _ _ _ hlen _
    simp only [List.length_nil] at hlen
    omega
  | cons frag rest ih =>
    intro counter sent hsl hcN hmid hlen hnostop
    have hfoot : addFooter frag gVer = some (frag ++ encodeBE2 gVer) := by
      simp [addFooter, packH, hv]
    by_cases hc : counter = N
    · subst hc
      exact ⟨sent, by simp [fountainLoop, hfoot, hfN], hsl⟩
    · have hlt : counter < N := lt_of_le_of_ne hcN hc
      have hfc : fails counter = false := hmid counter le_rfl hlt
      have hsc : stop (counter + 1) = false := hnostop (counter + 1) (by omega)
      obtain ⟨s, hs, hslen⟩ := ih (counter + 1)
        (sent ++ [frag ++ encodeBE2 gVer])
        (by simp [hsl]) (by omega)
        (fun i hi1 hi2 => hmid i (by omega) hi2)
        (by simp only [List.length_cons] at hlen; omega)
        hnostop
      exact ⟨s, by simp [fountainLoop, hfoot, hfc, hsc, hs], hslen⟩

/-- Invariant of the loop: the counter always equals the number of
droplets handed to the transport, in every outcome. -/
lemma fountainLoop_counter_eq (stop fails : Nat → Bool) (gVer : Nat) :
    ∀ (frags : List Bytes) (counter : Nat) (sent : List Bytes),
      sent.length = counter →
      (fountainLoop stop fails gVer counter sent frags).counter
        = (fountainLoop stop fails gVer counter sent frags).sent.length := by
  intro frags
  induction frags with
  | nil =>
    intro counter sent h
    simp [fountainLoop, FResult.counter, FResult.sent, h]
  | cons frag rest ih =>
    intro counter sent h
    rcases haf : addFooter frag gVer with _ | d
    · simp [fountainLoop, haf, FResult.counter, FResult.sent, h]
    · by_cases hfc : fails counter
      · simp [fountainLoop, haf, hfc, FResult.counter, FResult.sent, h]
      · by_cases hsc : stop (counter + 1)
        · simp [fountainLoop, haf, hfc, hsc, FResult.counter,
            FResult.sent, h]
        · have hrec := ih (counter + 1) (sent ++ [d]) (by simp [h])
          simpa [fountainLoop, haf, hfc, hsc] using hrec

/-- C1: with a transport that never errors, an in-range global version
and enough fragments from the coder, the fountain completes: it sends
at least K droplets, it stops at the first counter value reaching
`(1 + round(Gamma, 1)) * K`, and — the criterion being tested after
every transmitted droplet — the count never exceeds that bound by more
than one droplet. -/
theorem fountain_stop_criterion (env : FountainEnv) (ver : Nat)
    (hf : ∀ n, env.fails n = false)
    (hk : env.splitBlocks ≠ [])
    (hv : env.gvVERSION < 65536)
    (hlen : Nat.ceil ((1 + round1
        (Gamma_spec env.splitBlocks.length DEFAULT_DELTA))
          * env.splitBlocks.length) ≤ env.encFrags.length) :
    ∃ c s, fountain env ver = some (.completed c s) ∧
      env.splitBlocks.length ≤ c ∧
      (1 + round1 (Gamma_spec env.splitBlocks.length DEFAULT_DELTA))
          * env.splitBlocks.length ≤ (c : ℝ) ∧
      (c : ℝ) < (1 + round1 (Gamma_spec env.splitBlocks.length
          DEFAULT_DELTA)) * env.splitBlocks.length + 1 := by
  set K := env.splitBlocks.length with hKdef
  set g := Gamma_spec K DEFAULT_DELTA with hgdef
  set B := (1 + round1 g) * (K : ℝ) with hBdef
  have hK1 : 1 ≤ K := List.length_pos.mpr hk
  have hg0 : 0 ≤ g := Gamma_spec_nonneg _ _ (Nat.cast_nonneg K)
  have hr0 : 0 ≤ round1 g := round1_nonneg g hg0
  have hBK : (K : ℝ) ≤ B := by
    have h1 : (1 : ℝ) * K ≤ (1 + round1 g) * K :=
      mul_le_mul_of_nonneg_right (by linarith) (Nat.cast_nonneg K)
    simpa using h1
  have hB0 : 0 ≤ B := le_trans (Nat.cast_nonneg K) hBK
  set m := Nat.ceil B with hmdef
  have hKm : K ≤ m := by
    have := Nat.ceil_mono hBK
    simpa [hmdef] using this
  have hm1 : 1 ≤ m := le_trans hK1 hKm
  have hstop : fountainStop g K (0 + m) = true := by
    rw [Nat.zero_add, fountainStop_iff]
  have hmin : ∀ i, 1 ≤ i → i < m → fountainStop g K (0 + i) = false := by
    intro i _ hi
    rw [Nat.zero_add]
    apply Bool.eq_false_iff.mpr
    intro hcontra
    rw [fountainStop_iff, ← hBdef] at hcontra
    omega
  obtain ⟨s, hs⟩ := fountainLoop_completes (fountainStop g K) env.fails
    env.gvVERSION hf hv env.encFrags 0 [] m hm1 hlen hstop hmin
  refine ⟨m, s, ?_, hKm, ?_, ?_⟩
  · unfold fountain
    rw [founParameters_eq _ hk]
    simpa using hs
  · simpa [hmdef] using Nat.le_ceil B
  · simpa [hmdef] using Nat.ceil_lt_add_one hB0

/-- C1 witness: a one-block split (K = 1) and three fragments; the run
completes within the bound. -/
theorem fountain_stop_criterion_witness :
    ([[0]] : List Bytes) ≠ [] ∧ 9 < 65536 ∧
    Nat.ceil ((1 + round1 (Gamma_spec (1 : ℝ) DEFAULT_DELTA))
        * (1 : ℝ)) ≤ 3 ∧
    (∃ c s,
      fountain ⟨4, [[0]], [[1], [2], [3]], fun _ => false, 9⟩ 9
        = some (.completed c s) ∧
      1 ≤ c ∧
      (1 + round1 (Gamma_spec (1 : ℝ) DEFAULT_DELTA)) ≤ (c : ℝ) ∧
      (c : ℝ) < (1 + round1 (Gamma_spec (1 : ℝ) DEFAULT_DELTA)) + 1) := by
  have hg : Gamma_spec (1 : ℝ) DEFAULT_DELTA = Real.log 2 ^ 2 := by
    simp [Gamma_spec, DEFAULT_DELTA, Real.sqrt_one]
  have hgl : Real.log 2 ^ 2 < 1 := by
    have h2 : Real.log 2 < 1 :=
      lt_trans Real.log_two_lt_d9 (by norm_num)
    have h0 : 0 ≤ Real.log 2 := Real.log_nonneg (by norm_num)
    nlinarith
  have hround : round1 (Real.log 2 ^ 2) ≤ 11 / 10 := by
    have hfl : (round (10 * Real.log 2 ^ 2) : ℝ)
        ≤ 10 * Real.log 2 ^ 2 + 1 / 2 := by
      rw [round_eq]
      exact le_trans (Int.floor_le _) (by norm_num)
    have h0 : 0 ≤ Real.log 2 ^ 2 := sq_nonneg _
    have hle : (round (10 * Real.log 2 ^ 2) : ℝ) ≤ 11 := by nlinarith
    rw [round1]
    linarith
  have hlen1 : Nat.ceil ((1 + round1 (Gamma_spec (1 : ℝ) DEFAULT_DELTA))
      * (1 : ℝ)) ≤ 3 := by
    apply Nat.ceil_le.mpr
    rw [hg]
    norm_num
    nlinarith [hround]
  refine ⟨by simp, by norm_num, hlen1, ?_⟩
  have h := fountain_stop_criterion
    ⟨4, [[0]], [[1], [2], [3]], fun _ => false, 9⟩ 9
    (fun _ => rfl) (by simp) (by norm_num) (by simpa using hlen1)
  obtain ⟨c, s, h1, h2, h3, h4⟩ := h
  exact ⟨c, s, h1, by simpa using h2, by simpa using h3,
    by simpa using h4⟩

/-- C4: if the first N send attempts succeed, the next raises, and the
stop bound has not been reached, the session aborts with the transport
error: the error surfaces (the result is not a completion), and no
droplet beyond the N already-sent ones is transmitted. -/
theorem fountain_transport_error_aborts (env : FountainEnv)
    (ver N : Nat)
    (hk : env.splitBlocks ≠ [])
    (hv : env.gvVERSION < 65536)
    (hfN : env.fails N = true)
    (hbefore : ∀ i, i < N → env.fails i = false)
    (hN : N < env.encFrags.length)
    (hnostop : (N : ℝ) < (1 + round1
        (Gamma_spec env.splitBlocks.length DEFAULT_DELTA))
          * env.splitBlocks.length) :
    ∃ s, fountain env ver = some (.transportError N s) ∧
      s.length = N := by
  have hnostop' : ∀ c, c ≤ N →
      fountainStop (Gamma_spec env.splitBlocks.length DEFAULT_DELTA)
        env.splitBlocks.length c = false := by
    intro c hc
    apply Bool.eq_false_iff.mpr
    intro hcontra
    rw [fountainStop, decide_eq_true_iff] at hcontra
    have hcN : (c : ℝ) ≤ (N : ℝ) := by exact_mod_cast hc
    linarith
  obtain ⟨s, hs, hslen⟩ := fountainLoop_errors
    (fountainStop (Gamma_spec env.splitBlocks.length DEFAULT_DELTA)
      env.splitBlocks.length) env.fails env.gvVERSION hv N hfN
    env.encFrags 0 [] rfl (Nat.zero_le N)
    (fun i _ hi => hbefore i hi) (by omega) hnostop'
  refine ⟨s, ?_, hslen⟩
  unfold fountain
  rw [founParameters_eq _ hk]
  simpa using hs

/-- C4 witness: the very first send raises; the session surfaces the
error with zero droplets sent. -/
theorem fountain_transport_error_aborts_witness :
    (fun _ : Nat => true) 0 = true ∧
    (0 : ℝ) < (1 + round1 (Gamma_spec (1 : ℝ) DEFAULT_DELTA)) ∧
    (∃ s, fountain ⟨4, [[0]], [[1]], fun _ => true, 9⟩ 9
        = some (.transportError 0 s) ∧ s.length = 0) := by
  have hg0 : 0 ≤ Gamma_spec (1 : ℝ) DEFAULT_DELTA :=
    Gamma_spec_nonneg _ _ (by norm_num)
  have hr0 := round1_nonneg _ hg0
  have hB : (0 : ℝ) < 1 + round1 (Gamma_spec (1 : ℝ) DEFAULT_DELTA) := by
    linarith
  refine ⟨rfl, hB, ?_⟩
  exact fountain_transport_error_aborts ⟨4, [[0]], [[1]],
    fun _ => true, 9⟩ 9 0 (by simp) (by norm_num) rfl
    (fun i hi => by omega) (by simp) (by simpa using hB)

/-- C5 (code-bug evidence): fountain.py line 224 frames droplets with
`gv.VERSION`, not with the session's `ver` argument, contrary to the
function's own docstring.  A session invoked with `ver = 7` while the
global version is 5 sends a droplet whose footer encodes 5, which
differs from the footer the claim requires. -/
theorem fountain_frames_with_global_version :
    fountain ⟨4, [[0]], [[9]], fun _ => false, 5⟩ 7
      = some (.exhausted 1 [[9] ++ encodeBE2 5]) ∧
    [9] ++ encodeBE2 5 ≠ [9] ++ encodeBE2 7 := by
  constructor
  · have hg : Gamma_spec (1 : ℝ) DEFAULT_DELTA = Real.log 2 ^ 2 := by
      simp [Gamma_spec, DEFAULT_DELTA, Real.sqrt_one]
    have hlog : (0.6931471803 : ℝ) < Real.log 2 := Real.log_two_gt_d9
    have hr1 : (1 : ℤ) ≤ round (10 * Real.log 2 ^ 2) := by
      rw [round_eq]
      apply Int.le_floor.mpr
      push_cast
      nlinarith
    have hstop1 :
        fountainStop (Gamma_spec (1 : ℝ) DEFAULT_DELTA) 1 1 = false := by
      apply Bool.eq_false_iff.mpr
      intro hcontra
      rw [fountainStop, decide_eq_true_iff, hg] at hcontra
      have hr0 : (1 : ℝ) / 10 ≤ round1 (Real.log 2 ^ 2) := by
        rw [round1]
        have hc : (1 : ℝ) ≤ (round (10 * Real.log 2 ^ 2) : ℝ) := by
          exact_mod_cast hr1
        linarith
      push_cast at hcontra
      nlinarith
    unfold fountain
    rw [founParameters_eq _ (by simp)]
    norm_num [fountainLoop, addFooter, packH, encodeBE2, hstop1]
  · simp [encodeBE2]

/-- C10: in every outcome of a fountain run the packet counter equals
the number of droplets successfully handed to the transport: it is
bumped exactly once per successful send, only after the send returns,
and a raising send is never counted, so the count used by the stop
criterion and the final statistics is the number of droplets actually
sent. -/
theorem fountain_counter_counts_sends (env : FountainEnv) (ver : Nat)
    (r : FResult) (hr : fountain env ver = some r) :
    r.counter = r.sent.length := by
  unfold fountain at hr
  rcases hfp : FounParameters (env.fileSize, env.splitBlocks) with _ | kg
  · rw [hfp] at hr
    simp at hr
  · rw [hfp] at hr
    simp only [Option.map_some'] at hr
    have hinj : fountainLoop (fountainStop kg.2 kg.1) env.fails
        env.gvVERSION 0 [] env.encFrags = r := Option.some.inj hr
    rw [← hinj]
    exact fountainLoop_counter_eq _ _ _ env.encFrags 0 [] rfl

/-- C10 witness: a run over an empty fragment stream ends exhausted
with counter 0 and no droplets sent. -/
theorem fountain_counter_counts_sends_witness :
    fountain ⟨7, [[0]], [], fun _ => false, 0⟩ 0
      = some (.exhausted 0 []) ∧
    (FResult.exhausted 0 []).counter
      = (FResult.exhausted 0 []).sent.length := by
  have heval : fountain ⟨7, [[0]], [], fun _ => false, 0⟩ 0
      = some (.exhausted 0 []) := by
    unfold fountain
    rw [founParameters_eq _ (by simp)]
    simp [fountainLoop]
  exact ⟨heval, fountain_counter_counts_sends _ 0 _ heval⟩

end Sprinkler
